import Mathlib

/-!
# Verification of the multigoal-sip financial engine

Shallow embedding, over exact rational arithmetic, of the `SIPCalculator`
class of `src/js/calculator.js`.  JavaScript numbers are modelled as `ℚ`;
`Math.round` is modelled as `jsRound` (floor of `x + 1/2`, which is what
`Math.round` computes for every real argument).  The investment horizon
`years` is modelled as `ℕ` in every function that raises a quantity to the
power of (a multiple of) `years`, because a fractional exponent of a
rational base is irrational and falls outside the exact model; in
`calculateTotalInvestment`, which never exponentiates by a fractional
quantity, `years` is kept as an arbitrary `ℚ` and the JavaScript loop
`for (let year = 0; year < years; year++)` runs `jsLoopIterations years`
times (proved to be the right count below).
The `while` loop of `calculateStepUpSIP` is embedded as the fuel recursion
`bisectGo`; the fuel `(⌈targetAmount / 12⌉).toNat` provably suffices and the
result is independent of any larger fuel (proved below), which is the formal
counterpart of the loop's termination.
-/

namespace SIPCalculator

/-- JavaScript `Math.round`: rounds to the nearest integer, halves toward
positive infinity, i.e. `⌊x + 1/2⌋`. -/
def jsRound (x : ℚ) : ℚ := (⌊x + 1/2⌋ : ℤ)

/-- Embeds `calculateInflationAdjustedAmount` (calculator.js lines 25-34):
returns `currentPrice` unchanged when `currentPrice === 0 || years === 0`,
otherwise `Math.round(currentPrice * Math.pow(1 + inflationRate/100, years))`. -/
def calculateInflationAdjustedAmount (currentPrice inflationRate : ℚ) (years : ℕ) : ℚ :=
  if currentPrice = 0 ∨ years = 0 then currentPrice
  else jsRound (currentPrice * (1 + inflationRate / 100) ^ years)

/-- Embeds `calculateStepUpFutureValue` (calculator.js lines 113-133).
The JS double loop accumulates, for `year` in `0..years-1` and `month` in
`0..11`, the term `currentSIP * Math.pow(1 + monthlyRate, totalMonths)` where
`currentSIP = initialSIP * (1 + stepUpRate/100)^year` (it is multiplied by
`1 + annualStepUp` once per outer iteration) and
`totalMonths = (years - year) * 12 - month`.  Rational addition is
commutative and associative, so the accumulation is the double sum below;
the `ℕ`-subtraction in the exponent agrees with the JS value because
`year < years` and `month < 12` keep it positive. -/
def calculateStepUpFutureValue (initialSIP : ℚ) (years : ℕ) (annualRate stepUpRate : ℚ) : ℚ :=
  let monthlyRate := annualRate / 12 / 100
  let annualStepUp := stepUpRate / 100
  ∑ year ∈ Finset.range years, ∑ month ∈ Finset.range 12,
    initialSIP * (1 + annualStepUp) ^ year * (1 + monthlyRate) ^ ((years - year) * 12 - month)

/-- The body of the `while (high - low > tolerance)` loop of
`calculateStepUpSIP` (calculator.js lines 90-99), embedded as a fuel
recursion: each step computes `mid = (low + high) / 2`, assigns it to
`initialSIP`, consults the oracle `calculateStepUpFutureValue`, and moves
`low` or `high` to `mid`; when the loop guard fails the current `initialSIP`
is returned.  The fuel is an upper bound on the number of iterations; the
fuel lemmas below show that `(⌈high - low⌉).toNat` fuel always suffices, so
the fuel is not a semantic restriction but the embedding of the loop's
guaranteed termination. -/
def bisectGo (targetAmount : ℚ) (years : ℕ) (annualRate stepUpRate : ℚ) :
    ℕ → ℚ → ℚ → ℚ → ℚ
  | 0, _, _, initialSIP => initialSIP
  | fuel + 1, low, high, initialSIP =>
    if 1 < high - low then
      let mid := (low + high) / 2
      if calculateStepUpFutureValue mid years annualRate stepUpRate < targetAmount then
        bisectGo targetAmount years annualRate stepUpRate fuel mid high mid
      else
        bisectGo targetAmount years annualRate stepUpRate fuel low mid mid
    else initialSIP

/-- Embeds `calculateStepUpSIP` (calculator.js lines 80-102): binary search
with `low = 0`, `high = targetAmount / 12`, `initialSIP = 0`, tolerance `1`,
returning `Math.round(initialSIP)`.  The fuel `(⌈targetAmount / 12⌉).toNat`
bounds the iteration count of the JS `while` loop (see the fuel lemmas
below). -/
def calculateStepUpSIP (targetAmount : ℚ) (years : ℕ) (annualRate stepUpRate : ℚ) : ℚ :=
  jsRound (bisectGo targetAmount years annualRate stepUpRate
    (⌈targetAmount / 12⌉).toNat 0 (targetAmount / 12) 0)

/-- Embeds `calculateMonthlySIP` (calculator.js lines 52-69): with
`n = years * 12` and `i = annualRate / 12 / 100`, returns `0` when
`targetAmount === 0 || n === 0 || i === 0`; otherwise, when the optional
`stepUpRate` is `0` (JS `!stepUpRate || stepUpRate === 0`), returns the
rounded annuity-due closed form, else delegates to `calculateStepUpSIP`. -/
def calculateMonthlySIP (targetAmount : ℚ) (years : ℕ) (annualRate : ℚ)
    (stepUpRate : ℚ := 0) : ℚ :=
  let n : ℕ := years * 12
  let i : ℚ := annualRate / 12 / 100
  if targetAmount = 0 ∨ n = 0 ∨ i = 0 then 0
  else if stepUpRate = 0 then
    let futureValueFactor := ((1 + i) ^ n - 1) / i * (1 + i)
    jsRound (targetAmount / futureValueFactor)
  else calculateStepUpSIP targetAmount years annualRate stepUpRate

/-- Iteration count of the JavaScript loop `for (let year = 0; year < years;
year++)` when `years` is an arbitrary (possibly fractional or non-positive)
number: the body runs exactly for the integers `year` with `year < years`,
i.e. `max(⌈years⌉, 0)` times. -/
def jsLoopIterations (years : ℚ) : ℕ := (⌈years⌉).toNat

/-- The loop of the step-up branch of `calculateTotalInvestment`
(calculator.js lines 152-155): `totalInvestment += currentSIP * 12` then
`currentSIP *= (1 + annualStepUp)`, once per loop year. -/
def totalInvestGo (annualStepUp : ℚ) : ℕ → ℚ → ℚ → ℚ
  | 0, _, acc => acc
  | n + 1, currentSIP, acc =>
    totalInvestGo annualStepUp n (currentSIP * (1 + annualStepUp)) (acc + currentSIP * 12)

/-- Embeds `calculateTotalInvestment` (calculator.js lines 142-158): the
flat branch returns `monthlySIP * years * 12` with the exact (possibly
fractional) `years`; the step-up branch iterates the year loop
`jsLoopIterations years` times. -/
def calculateTotalInvestment (monthlySIP years : ℚ) (stepUpRate : ℚ := 0) : ℚ :=
  if stepUpRate = 0 then monthlySIP * years * 12
  else totalInvestGo (stepUpRate / 100) (jsLoopIterations years) monthlySIP 0

/-- Embeds `calculateWealthGain` (calculator.js lines 166-168). -/
def calculateWealthGain (futureValue totalInvested : ℚ) : ℚ :=
  futureValue - totalInvested

/-- A goal record as consumed by `calculateSummary`.  `years` is `ℕ` (see
the module docstring); the remaining numeric fields are unconstrained
rationals — the engine performs no validation. -/
structure Goal where
  currentPrice : ℚ
  inflationRate : ℚ
  years : ℕ
  expectedReturn : ℚ
  stepUpRate : ℚ

/-- The inflation-adjusted target computed for one goal inside the
`forEach` of `calculateSummary` (calculator.js lines 181-185). -/
def goalInflatedTarget (g : Goal) : ℚ :=
  calculateInflationAdjustedAmount g.currentPrice g.inflationRate g.years

/-- The required monthly SIP computed for one goal inside the `forEach` of
`calculateSummary` (calculator.js line 187). -/
def goalSIP (g : Goal) : ℚ :=
  calculateMonthlySIP (goalInflatedTarget g) g.years g.expectedReturn g.stepUpRate

/-- The nominal total investment computed for one goal inside the `forEach`
of `calculateSummary` (calculator.js line 190). -/
def goalInvestment (g : Goal) : ℚ :=
  calculateTotalInvestment (goalSIP g) (g.years : ℚ) g.stepUpRate

/-- The record returned by `calculateSummary`. -/
structure Summary where
  totalSIP : ℚ
  totalFutureValue : ℚ
  totalInvested : ℚ
  totalWealthGained : ℚ
deriving DecidableEq

/-- Embeds `calculateSummary` (calculator.js lines 175-201): the `forEach`
accumulates three running sums (written here as sums of per-goal values,
which is the same accumulation since rational addition is commutative and
associative); `totalInvested` and `totalWealthGained` are floored at `0` by
`Math.max`, and the wealth gain is computed from the unfloored invested
total. -/
def calculateSummary (goals : List Goal) : Summary :=
  let totalSIP := (goals.map goalSIP).sum
  let totalFutureValue := (goals.map goalInflatedTarget).sum
  let totalInvested := (goals.map goalInvestment).sum
  let totalWealthGained := calculateWealthGain totalFutureValue totalInvested
  { totalSIP := totalSIP
    totalFutureValue := totalFutureValue
    totalInvested := max totalInvested 0
    totalWealthGained := max totalWealthGained 0 }

/-- The rational monthly rate `annualRate / 12 / 100` vanishes exactly when
`annualRate` does. -/
theorem monthlyRate_eq_zero_iff (r : ℚ) : r / 12 / 100 = 0 ↔ r = 0 := by
  rw [div_eq_zero_iff, div_eq_zero_iff]
  norm_num

/-- The level branch of `calculateMonthlySIP`, written with the degenerate
guard expressed on the raw inputs (shared by the C2 and C5 theorems). -/
theorem monthlySIP_eq_cases (t : ℚ) (Y : ℕ) (r : ℚ) :
    calculateMonthlySIP t Y r 0 =
      if t = 0 ∨ Y = 0 ∨ r = 0 then 0
      else jsRound (t /
        (((1 + r / 12 / 100) ^ (Y * 12) - 1) / (r / 12 / 100) * (1 + r / 12 / 100))) := by
  have hY12 : Y * 12 = 0 ↔ Y = 0 := by omega
  have hg : (t = 0 ∨ Y * 12 = 0 ∨ r / 12 / 100 = 0) ↔ (t = 0 ∨ Y = 0 ∨ r = 0) := by
    rw [monthlyRate_eq_zero_iff, hY12]
  simp only [calculateMonthlySIP]
  by_cases h : t = 0 ∨ Y = 0 ∨ r = 0
  · rw [if_pos (hg.mpr h), if_pos h]
  · rw [if_neg (fun hc => h (hg.mp hc)), if_neg h]
    simp

/-- C5.  Level-SIP solver contract: `calculateMonthlySIP(t, Y, r, 0)` returns
`0` whenever `t = 0`, `Y * 12 = 0` (i.e. `Y = 0`) or the monthly rate
`r / 12 / 100 = 0` (i.e. `r = 0`), short-circuiting before any division; for
all other inputs it returns `t / (((1+i)^n - 1) / i * (1+i))` with
`i = r / 12 / 100` and `n = Y * 12`, rounded to the nearest whole unit. -/
theorem monthlySIP_contract (t : ℚ) (Y : ℕ) (r : ℚ) :
    calculateMonthlySIP t Y r 0 =
      if t = 0 ∨ Y = 0 ∨ r = 0 then 0
      else jsRound (t /
        (((1 + r / 12 / 100) ^ (Y * 12) - 1) / (r / 12 / 100) * (1 + r / 12 / 100))) :=
  monthlySIP_eq_cases t Y r

/-- C6.  Inflation projector contract: `calculateInflationAdjustedAmount`
returns `currentPrice` unchanged when `currentPrice = 0` or `years = 0`,
otherwise `currentPrice * (1 + inflationRate/100)^years` rounded to the
nearest whole unit; and the known value
`calculateInflationAdjustedAmount 100000 6 10 = 179085` (within ±1). -/
theorem inflationAdjusted_contract :
    (∀ (p r : ℚ) (y : ℕ),
        calculateInflationAdjustedAmount p r y =
          if p = 0 ∨ y = 0 then p else jsRound (p * (1 + r / 100) ^ y)) ∧
      |calculateInflationAdjustedAmount 100000 6 10 - 179085| ≤ 1 := by
  constructor
  · intro p r y
    rfl
  · norm_num [calculateInflationAdjustedAmount, jsRound]

/-- C7.  Non-negativity floor of the aggregator: for every goal list,
`totalInvested` and `totalWealthGained` are non-negative, `totalWealthGained`
is the unfloored future-value total minus the unfloored invested total,
floored at `0` independently of the `totalInvested` floor, and the empty
goal list yields the all-zero summary. -/
theorem summary_nonneg_floor (goals : List Goal) :
    0 ≤ (calculateSummary goals).totalInvested ∧
      0 ≤ (calculateSummary goals).totalWealthGained ∧
      (calculateSummary goals).totalWealthGained =
        max ((goals.map goalInflatedTarget).sum - (goals.map goalInvestment).sum) 0 ∧
      calculateSummary [] = ⟨0, 0, 0, 0⟩ :=
  ⟨le_max_right _ _, le_max_right _ _, rfl, by simp [calculateSummary, calculateWealthGain]⟩

/-- C9.  Small-target cutoff: when `0 ≤ targetAmount ≤ 12` the initial
bracket width `targetAmount / 12` is at most the tolerance `1`, the search
loop body never runs, and `calculateStepUpSIP` returns exactly `0`, for
every `years`, `annualRate` and `stepUpRate`. -/
theorem stepUpSIP_smallTarget (t : ℚ) (Y : ℕ) (r u : ℚ)
    (h0 : 0 ≤ t) (h12 : t ≤ 12) : calculateStepUpSIP t Y r u = 0 := by
  have hw : ¬ (1 : ℚ) < t / 12 - 0 := by
    rw [sub_zero, not_lt]
    exact (div_le_one (by norm_num)).mpr h12
  have hb : bisectGo t Y r u ((⌈t / 12⌉).toNat) 0 (t / 12) 0 = 0 := by
    cases hn : (⌈t / 12⌉).toNat with
    | zero => rfl
    | succ n =>
      simp only [bisectGo]
      rw [if_neg hw]
  unfold calculateStepUpSIP
  rw [hb]
  norm_num [jsRound]

/-- Closed instance of `stepUpSIP_smallTarget` at `targetAmount = 5`,
`years = 3`, `annualRate = 12`, `stepUpRate = 10`. -/
theorem stepUpSIP_smallTarget_witness :
    (0 : ℚ) ≤ 5 ∧ (5 : ℚ) ≤ 12 ∧ calculateStepUpSIP 5 3 12 10 = 0 :=
  ⟨by norm_num, by norm_num, stepUpSIP_smallTarget 5 3 12 10 (by norm_num) (by norm_num)⟩

/-- The step-up future value is linear in the initial contribution: it is
`initialSIP` times the future value of a unit contribution. -/
theorem stepUpFV_linear (s : ℚ) (Y : ℕ) (r u : ℚ) :
    calculateStepUpFutureValue s Y r u = s * calculateStepUpFutureValue 1 Y r u := by
  simp only [calculateStepUpFutureValue]
  rw [Finset.mul_sum]
  refine Finset.sum_congr rfl fun y _ => ?_
  rw [Finset.mul_sum]
  refine Finset.sum_congr rfl fun m _ => ?_
  ring

/-- Every term of the future-value double sum is non-negative when the
step-up rate is non-negative and the growth base is positive. -/
theorem stepUpFV_nonneg (s : ℚ) (Y : ℕ) (r u : ℚ) (hs : 0 ≤ s) (hr : 0 ≤ r) (hu : 0 ≤ u) :
    0 ≤ calculateStepUpFutureValue s Y r u := by
  simp only [calculateStepUpFutureValue]
  refine Finset.sum_nonneg fun y _ => Finset.sum_nonneg fun m _ => ?_
  have h1 : (0:ℚ) ≤ 1 + u / 100 := by linarith [div_nonneg hu (by norm_num : (0:ℚ) ≤ 100)]
  have h2 : (0:ℚ) ≤ 1 + r / 12 / 100 := by
    have : (0:ℚ) ≤ r / 12 / 100 := by positivity
    linarith
  exact mul_nonneg (mul_nonneg hs (pow_nonneg h1 y)) (pow_nonneg h2 _)

/-- The future value of a unit contribution is at least `12` (one unit per
month for at least one year, each month strictly grown): this is what makes
the search bound `high = targetAmount / 12` overshoot. -/
theorem stepUpFV_one_ge_twelve (Y : ℕ) (r u : ℚ) (hY : 1 ≤ Y) (hr : 0 < r) (hu : 0 ≤ u) :
    12 ≤ calculateStepUpFutureValue 1 Y r u := by
  simp only [calculateStepUpFutureValue]
  have h1 : (1:ℚ) ≤ 1 + u / 100 := by linarith [div_nonneg hu (by norm_num : (0:ℚ) ≤ 100)]
  have h2 : (1:ℚ) ≤ 1 + r / 12 / 100 := by
    have : (0:ℚ) ≤ r / 12 / 100 := by positivity
    linarith
  have hterm : ∀ y ∈ Finset.range Y, (0:ℚ) ≤ ∑ m ∈ Finset.range 12,
      1 * (1 + u / 100) ^ y * (1 + r / 12 / 100) ^ ((Y - y) * 12 - m) := by
    intro y _
    refine Finset.sum_nonneg fun m _ => ?_
    have := pow_nonneg (by linarith : (0:ℚ) ≤ 1 + u / 100) y
    have := pow_nonneg (by linarith : (0:ℚ) ≤ 1 + r / 12 / 100) ((Y - y) * 12 - m)
    nlinarith
  have h0mem : 0 ∈ Finset.range Y := Finset.mem_range.mpr (by omega)
  refine le_trans ?_ (Finset.single_le_sum hterm h0mem)
  have hinner : ∀ m ∈ Finset.range 12, (1:ℚ) ≤
      1 * (1 + u / 100) ^ 0 * (1 + r / 12 / 100) ^ ((Y - 0) * 12 - m) := by
    intro m _
    have := one_le_pow₀ h2 (n := (Y - 0) * 12 - m)
    simpa using this
  calc (12:ℚ) = ∑ _m ∈ Finset.range 12, (1:ℚ) := by simp
  _ ≤ _ := Finset.sum_le_sum hinner

/-- When the bracket is wider than the tolerance, the ceiling of the halved
width is strictly below the ceiling of the width: the measure that makes the
bisection terminate. -/
theorem ceil_halving {w : ℚ} (hw : 1 < w) : (⌈w / 2⌉).toNat < (⌈w⌉).toNat := by
  have h1 : (1:ℤ) < ⌈w⌉ := Int.lt_ceil.mpr (by exact_mod_cast hw)
  have h2 : ⌈w / 2⌉ ≤ ⌈w⌉ - 1 := by
    rw [Int.ceil_le]
    have hcw : w ≤ (⌈w⌉ : ℚ) := Int.le_ceil w
    have h2' : (2:ℚ) ≤ (⌈w⌉ : ℚ) := by exact_mod_cast h1
    push_cast
    linarith
  omega

/-- A bracket whose width-ceiling is `0` is already within tolerance. -/
theorem width_le_one_of_ceil_zero {w : ℚ} (h : (⌈w⌉).toNat = 0) : ¬ (1:ℚ) < w := by
  have h0 : ⌈w⌉ ≤ 0 := by omega
  have : w ≤ ((0:ℤ) : ℚ) := Int.ceil_le.mp h0
  push_cast at this
  linarith

/-- One extra unit of fuel never changes `bisectGo` once the fuel is at
least the ceiling of the bracket width: the loop body executes at most
`⌈high - low⌉` times because the width exactly halves each iteration. -/
theorem bisectGo_fuel_succ (t : ℚ) (Y : ℕ) (r u : ℚ) :
    ∀ (f : ℕ) (low high init : ℚ), (⌈high - low⌉).toNat ≤ f →
      bisectGo t Y r u (f + 1) low high init = bisectGo t Y r u f low high init := by
  intro f
  induction f with
  | zero =>
    intro low high init hf
    have hnw := width_le_one_of_ceil_zero (w := high - low) (by omega)
    simp only [bisectGo]
    rw [if_neg hnw]
  | succ f ih =>
    intro low high init hf
    by_cases hw : (1:ℚ) < high - low
    · have hhalf : (⌈(high - low) / 2⌉).toNat ≤ f := by
        have := ceil_halving hw
        omega
      simp only [bisectGo]
      rw [if_pos hw, if_pos hw]
      have e1 : high - (low + high) / 2 = (high - low) / 2 := by ring
      have e2 : (low + high) / 2 - low = (high - low) / 2 := by ring
      by_cases hfv : calculateStepUpFutureValue ((low + high) / 2) Y r u < t
      · rw [if_pos hfv, if_pos hfv]
        exact ih _ _ _ (by rw [e1]; exact hhalf)
      · rw [if_neg hfv, if_neg hfv]
        exact ih _ _ _ (by rw [e2]; exact hhalf)
    · simp only [bisectGo]
      rw [if_neg hw, if_neg hw]

/-- Any amount of fuel beyond `⌈high - low⌉` is irrelevant. -/
theorem bisectGo_fuel_add (t : ℚ) (Y : ℕ) (r u low high init : ℚ) :
    ∀ k : ℕ, bisectGo t Y r u ((⌈high - low⌉).toNat + k) low high init
      = bisectGo t Y r u ((⌈high - low⌉).toNat) low high init := by
  intro k
  induction k with
  | zero => rfl
  | succ k ih =>
    have h : (⌈high - low⌉).toNat + (k + 1) = ((⌈high - low⌉).toNat + k) + 1 := rfl
    rw [h, bisectGo_fuel_succ t Y r u _ low high init (by omega), ih]

/-- C8.  Termination of the step-up solver: the bracket width exactly halves
each iteration of the `while` loop (both candidate brackets produced by one
loop step have width `(high - low) / 2`), and the loop runs out of work
within `⌈high - low⌉` iterations — `bisectGo` computed with any fuel of at
least `(⌈high - low⌉).toNat` equals `bisectGo` computed with exactly
`(⌈high - low⌉).toNat` fuel, for every input, including non-positive
targets.  Hence `calculateStepUpSIP`, whose fuel is `(⌈targetAmount/12⌉).toNat`,
is a total function of its four arguments. -/
theorem stepUpSIP_terminates (t : ℚ) (Y : ℕ) (r u low high init : ℚ) (f : ℕ)
    (hf : (⌈high - low⌉).toNat ≤ f) :
    bisectGo t Y r u f low high init
        = bisectGo t Y r u ((⌈high - low⌉).toNat) low high init ∧
      (1 < high - low →
        high - (low + high) / 2 = (high - low) / 2 ∧
          (low + high) / 2 - low = (high - low) / 2) := by
  constructor
  · obtain ⟨k, rfl⟩ : ∃ k, f = (⌈high - low⌉).toNat + k := ⟨f - (⌈high - low⌉).toNat, by omega⟩
    exact bisectGo_fuel_add t Y r u low high init k
  · intro _
    constructor <;> ring

/-- Closed instance of `stepUpSIP_terminates`: fuel `9` is enough for a
bracket of width `100/12`. -/
theorem stepUpSIP_terminates_witness :
    (⌈(100:ℚ)/12 - 0⌉).toNat ≤ 9 ∧
      (bisectGo 100 1 12 0 9 0 (100/12) 0
          = bisectGo 100 1 12 0 ((⌈(100:ℚ)/12 - 0⌉).toNat) 0 (100/12) 0 ∧
        (1 < (100:ℚ)/12 - 0 →
          (100:ℚ)/12 - (0 + 100/12) / 2 = ((100:ℚ)/12 - 0) / 2 ∧
            (0 + (100:ℚ)/12) / 2 - 0 = ((100:ℚ)/12 - 0) / 2)) := by
  have hceil : (⌈(100:ℚ)/12 - 0⌉ : ℤ) = 9 := by
    rw [Int.ceil_eq_iff]
    norm_num
  constructor
  · rw [hceil]
    omega
  · exact stepUpSIP_terminates 100 1 12 0 0 (100/12) 0 9 (by rw [hceil]; omega)

/-- If the target's preimage `ρ` under the (linear, monotone) oracle lies in
the bracket, the bisection ends at most one unit away from `ρ`.  The side
hypothesis about `init` handles the case in which the loop body never runs. -/
theorem bisectGo_dist (t : ℚ) (Y : ℕ) (r u ρ : ℚ)
    (hcmp : ∀ a : ℚ, calculateStepUpFutureValue a Y r u < t ↔ a < ρ) :
    ∀ (f : ℕ) (low high init : ℚ), (⌈high - low⌉).toNat ≤ f →
      low ≤ ρ → ρ ≤ high → (high - low ≤ 1 → |init - ρ| ≤ 1) →
      |bisectGo t Y r u f low high init - ρ| ≤ 1 := by
  intro f
  induction f with
  | zero =>
    intro low high init hf hlo hhi hinit
    have hnw := width_le_one_of_ceil_zero (w := high - low) (by omega)
    simpa [bisectGo] using hinit (by linarith [not_lt.mp hnw])
  | succ f ih =>
    intro low high init hf hlo hhi hinit
    simp only [bisectGo]
    by_cases hw : (1:ℚ) < high - low
    · rw [if_pos hw]
      have e1 : high - (low + high) / 2 = (high - low) / 2 := by ring
      have e2 : (low + high) / 2 - low = (high - low) / 2 := by ring
      have hhalf : (⌈(high - low) / 2⌉).toNat ≤ f := by
        have := ceil_halving hw
        omega
      by_cases hfv : calculateStepUpFutureValue ((low + high) / 2) Y r u < t
      · rw [if_pos hfv]
        have hmid : (low + high) / 2 < ρ := (hcmp _).mp hfv
        refine ih _ _ _ (by rw [e1]; exact hhalf) hmid.le hhi ?_
        intro hsmall
        rw [abs_le]
        constructor <;> linarith
      · rw [if_neg hfv]
        have hmid : ρ ≤ (low + high) / 2 := not_lt.mp fun hc => hfv ((hcmp _).mpr hc)
        refine ih _ _ _ (by rw [e2]; exact hhalf) hlo hmid ?_
        intro hsmall
        rw [abs_le]
        constructor <;> linarith
    · rw [if_neg hw]
      exact hinit (by linarith [not_lt.mp hw])

/-- `jsRound` moves its argument by at most one half. -/
theorem jsRound_dist (x : ℚ) : |jsRound x - x| ≤ 1/2 := by
  have h1 : (↑⌊x + 1/2⌋ : ℚ) ≤ x + 1/2 := Int.floor_le (x + 1/2)
  have h2 : x + 1/2 < ↑⌊x + 1/2⌋ + 1 := Int.lt_floor_add_one (x + 1/2)
  rw [jsRound, abs_le]
  constructor <;> linarith

/-- `jsRound` is 1-Lipschitz on arguments at most one apart. -/
theorem jsRound_lipschitz {a b : ℚ} (h : |a - b| ≤ 1) :
    |jsRound a - jsRound b| ≤ 1 := by
  rw [abs_le] at h
  have h1 : ⌊a + 1/2⌋ ≤ ⌊b + 1/2⌋ + 1 := by
    have hmono : ⌊a + 1/2⌋ ≤ ⌊b + 1/2 + 1⌋ := Int.floor_le_floor (by linarith)
    rwa [Int.floor_add_one] at hmono
  have h2 : ⌊b + 1/2⌋ ≤ ⌊a + 1/2⌋ + 1 := by
    have hmono : ⌊b + 1/2⌋ ≤ ⌊a + 1/2 + 1⌋ := Int.floor_le_floor (by linarith)
    rwa [Int.floor_add_one] at hmono
  rw [jsRound, jsRound, abs_le]
  constructor
  · exact_mod_cast (by omega : (-1 : ℤ) ≤ ⌊a + 1/2⌋ - ⌊b + 1/2⌋)
  · exact_mod_cast (by omega : ⌊a + 1/2⌋ - ⌊b + 1/2⌋ ≤ (1 : ℤ))

/-- The comparison performed by the loop against the target is equivalent to
comparing the candidate contribution with `ρ = targetAmount / FV(1)`. -/
theorem stepUpFV_lt_iff (t : ℚ) (Y : ℕ) (r u : ℚ)
    (hK : 0 < calculateStepUpFutureValue 1 Y r u) (a : ℚ) :
    calculateStepUpFutureValue a Y r u < t ↔
      a < t / calculateStepUpFutureValue 1 Y r u := by
  rw [stepUpFV_linear a, lt_div_iff₀ hK]

/-- The un-rounded bisection result is within one unit of
`ρ = targetAmount / FV(1)`. -/
theorem bisect_result_close (t : ℚ) (Y : ℕ) (r u : ℚ)
    (ht : 0 < t) (hY : 1 ≤ Y) (hr : 0 < r) (hu : 0 ≤ u) :
    |bisectGo t Y r u ((⌈t / 12⌉).toNat) 0 (t / 12) 0
        - t / calculateStepUpFutureValue 1 Y r u| ≤ 1 := by
  have hK12 : 12 ≤ calculateStepUpFutureValue 1 Y r u := stepUpFV_one_ge_twelve Y r u hY hr hu
  have hK : 0 < calculateStepUpFutureValue 1 Y r u := by linarith
  have hρ0 : 0 ≤ t / calculateStepUpFutureValue 1 Y r u := div_nonneg ht.le hK.le
  have hρhi : t / calculateStepUpFutureValue 1 Y r u ≤ t / 12 := by
    rw [div_le_div_iff₀ hK (by norm_num : (0:ℚ) < 12)]
    nlinarith
  refine bisectGo_dist t Y r u _ (stepUpFV_lt_iff t Y r u hK) _ 0 (t / 12) 0
    (by rw [sub_zero]) hρ0 hρhi ?_
  intro hsmall
  rw [zero_sub, abs_neg, abs_of_nonneg hρ0]
  linarith

/-- C3.  Bracketing: under the claim's sign conditions the initial upper
bound `targetAmount / 12` overshoots the target, the initial lower bound `0`
undershoots it, and one step of the `while` loop preserves the invariant
`FV(low) ≤ targetAmount ≤ FV(high)`, whichever branch the oracle comparison
selects; hence the invariant holds before and after every iteration. -/
theorem stepUpSIP_bracketing (t : ℚ) (Y : ℕ) (r u low high : ℚ)
    (ht : 0 < t) (hY : 1 ≤ Y) (hr : 0 < r) (hu : 0 ≤ u) :
    t ≤ calculateStepUpFutureValue (t / 12) Y r u ∧
      calculateStepUpFutureValue 0 Y r u ≤ t ∧
      (calculateStepUpFutureValue low Y r u ≤ t →
        t ≤ calculateStepUpFutureValue high Y r u →
        1 < high - low →
        ((calculateStepUpFutureValue ((low + high) / 2) Y r u < t →
            calculateStepUpFutureValue ((low + high) / 2) Y r u ≤ t ∧
              t ≤ calculateStepUpFutureValue high Y r u) ∧
          (¬ calculateStepUpFutureValue ((low + high) / 2) Y r u < t →
            calculateStepUpFutureValue low Y r u ≤ t ∧
              t ≤ calculateStepUpFutureValue ((low + high) / 2) Y r u))) := by
  have hK12 : 12 ≤ calculateStepUpFutureValue 1 Y r u := stepUpFV_one_ge_twelve Y r u hY hr hu
  refine ⟨?_, ?_, ?_⟩
  · rw [stepUpFV_linear]
    rw [div_mul_eq_mul_div, le_div_iff₀ (by norm_num : (0:ℚ) < 12)]
    nlinarith
  · rw [stepUpFV_linear]
    nlinarith
  · intro hlow hhigh _
    exact ⟨fun hmid => ⟨hmid.le, hhigh⟩, fun hmid => ⟨hlow, not_lt.mp hmid⟩⟩

/-- Closed instance of `stepUpSIP_bracketing` at
`targetAmount = 100, years = 1, annualRate = 12, stepUpRate = 0`,
`low = 0, high = 100/12`. -/
theorem stepUpSIP_bracketing_witness :
    (0:ℚ) < 100 ∧ 1 ≤ 1 ∧ (0:ℚ) < 12 ∧ (0:ℚ) ≤ 0 ∧
      (100 ≤ calculateStepUpFutureValue ((100:ℚ) / 12) 1 12 0 ∧
        calculateStepUpFutureValue 0 1 12 0 ≤ 100 ∧
        (calculateStepUpFutureValue 0 1 12 0 ≤ 100 →
          (100:ℚ) ≤ calculateStepUpFutureValue ((100:ℚ)/12) 1 12 0 →
          1 < (100:ℚ)/12 - 0 →
          ((calculateStepUpFutureValue ((0 + (100:ℚ)/12) / 2) 1 12 0 < 100 →
              calculateStepUpFutureValue ((0 + (100:ℚ)/12) / 2) 1 12 0 ≤ 100 ∧
                (100:ℚ) ≤ calculateStepUpFutureValue ((100:ℚ)/12) 1 12 0) ∧
            (¬ calculateStepUpFutureValue ((0 + (100:ℚ)/12) / 2) 1 12 0 < 100 →
              calculateStepUpFutureValue 0 1 12 0 ≤ 100 ∧
                (100:ℚ) ≤ calculateStepUpFutureValue ((0 + (100:ℚ)/12) / 2) 1 12 0)))) :=
  ⟨by norm_num, le_refl 1, by norm_num, le_refl 0,
    stepUpSIP_bracketing 100 1 12 0 0 (100/12) (by norm_num) (le_refl 1)
      (by norm_num) (le_refl 0)⟩

/-- C1.  Round-trip correctness of the step-up solver: feeding the solver's
result back into the oracle lands within the search tolerance of one
contribution unit plus one half unit of rounding, both scaled by the
oracle's unit sensitivity `FV(1)`. -/
theorem stepUpSIP_roundTrip (t : ℚ) (Y : ℕ) (r u : ℚ)
    (ht : 0 < t) (hY : 1 ≤ Y) (hr : 0 < r) (hu : 0 ≤ u) :
    |calculateStepUpFutureValue (calculateStepUpSIP t Y r u) Y r u - t|
      ≤ 3/2 * calculateStepUpFutureValue 1 Y r u := by
  have hK12 : 12 ≤ calculateStepUpFutureValue 1 Y r u := stepUpFV_one_ge_twelve Y r u hY hr hu
  have hK : 0 < calculateStepUpFutureValue 1 Y r u := by linarith
  set K := calculateStepUpFutureValue 1 Y r u with hKdef
  set b := bisectGo t Y r u ((⌈t / 12⌉).toNat) 0 (t / 12) 0 with hbdef
  have hclose : |b - t / K| ≤ 1 := bisect_result_close t Y r u ht hY hr hu
  have hround : |jsRound b - b| ≤ 1/2 := jsRound_dist b
  have h32 : |jsRound b - t / K| ≤ 3/2 := by
    calc |jsRound b - t / K| = |(jsRound b - b) + (b - t / K)| := by ring_nf
    _ ≤ |jsRound b - b| + |b - t / K| := abs_add _ _
    _ ≤ 3/2 := by linarith
  have hsolve : calculateStepUpSIP t Y r u = jsRound b := rfl
  rw [hsolve, stepUpFV_linear]
  have heq : jsRound b * K - t = (jsRound b - t / K) * K := by
    field_simp
  rw [heq, abs_mul, abs_of_pos hK]
  exact mul_le_mul_of_nonneg_right h32 hK.le

/-- Closed instance of `stepUpSIP_roundTrip` at
`targetAmount = 100, years = 1, annualRate = 12, stepUpRate = 0`. -/
theorem stepUpSIP_roundTrip_witness :
    (0:ℚ) < 100 ∧ 1 ≤ 1 ∧ (0:ℚ) < 12 ∧ (0:ℚ) ≤ 0 ∧
      |calculateStepUpFutureValue (calculateStepUpSIP 100 1 12 0) 1 12 0 - 100|
        ≤ 3/2 * calculateStepUpFutureValue 1 1 12 0 :=
  ⟨by norm_num, le_refl 1, by norm_num, le_refl 0,
    stepUpSIP_roundTrip 100 1 12 0 (by norm_num) (le_refl 1) (by norm_num) (le_refl 0)⟩

/-- Closed form of one simulated contribution year: the twelve monthly
growth factors `x^12, x^11, …, x^1` sum to `x (x^12 - 1) / (x - 1)`. -/
theorem twelve_month_geom (x : ℚ) (hx : x - 1 ≠ 0) :
    ∑ m ∈ Finset.range 12, x ^ (12 - m) = x * (x ^ 12 - 1) / (x - 1) := by
  rw [eq_div_iff hx]
  simp only [Finset.sum_range_succ, Finset.sum_range_zero]
  norm_num
  ring

/-- Peeling the first simulated year: the future value of a unit step-up
schedule over `Y + 1` years is the stepped-up value of the `Y`-year schedule
plus the (undiscounted-contribution) growth of the newly added first year. -/
theorem stepUpFV_one_succ (Y : ℕ) (r u : ℚ) :
    calculateStepUpFutureValue 1 (Y + 1) r u
      = (1 + u / 100) * calculateStepUpFutureValue 1 Y r u
        + ∑ m ∈ Finset.range 12, (1 + r / 12 / 100) ^ ((Y + 1) * 12 - m) := by
  simp only [calculateStepUpFutureValue]
  rw [Finset.sum_range_succ', Finset.mul_sum]
  congr 1
  · refine Finset.sum_congr rfl fun y _ => ?_
    rw [Finset.mul_sum]
    refine Finset.sum_congr rfl fun m _ => ?_
    have hYy : Y + 1 - (y + 1) = Y - y := by omega
    rw [hYy, pow_succ]
    ring
  · refine Finset.sum_congr rfl fun m _ => ?_
    norm_num

/-- With `stepUpRate = 0` the step-up simulation collapses to the
annuity-due closed form used by the level branch of `calculateMonthlySIP`:
the unit future value is `((1+i)^(12Y) - 1) / i * (1+i)`. -/
theorem stepUpFV_one_level (Y : ℕ) (r : ℚ) (hr : r ≠ 0) :
    calculateStepUpFutureValue 1 Y r 0 =
      ((1 + r / 12 / 100) ^ (Y * 12) - 1) / (r / 12 / 100) * (1 + r / 12 / 100) := by
  have hi : r / 12 / 100 ≠ 0 := fun h => hr ((monthlyRate_eq_zero_iff r).mp h)
  induction Y with
  | zero => simp [calculateStepUpFutureValue]
  | succ Y ih =>
    rw [stepUpFV_one_succ]
    have h10 : (1 + (0:ℚ) / 100) = 1 := by norm_num
    rw [h10, one_mul, ih]
    have hexp : ∀ m ∈ Finset.range 12, (Y + 1) * 12 - m = Y * 12 + (12 - m) := by
      intro m hm
      rw [Finset.mem_range] at hm
      omega
    rw [Finset.sum_congr rfl fun m hm => by rw [hexp m hm, pow_add]]
    rw [← Finset.mul_sum]
    have hx1 : (1 + r / 12 / 100) - 1 ≠ 0 := by
      intro h
      exact hi (by linarith)
    rw [twelve_month_geom _ hx1]
    have hpow : (1 + r / 12 / 100) ^ ((Y + 1) * 12)
        = (1 + r / 12 / 100) ^ (Y * 12) * (1 + r / 12 / 100) ^ 12 := by
      rw [← pow_add]
      congr 1
      ring
    rw [hpow]
    have hsub : (1 + r / 12 / 100) - 1 = r / 12 / 100 := by ring
    field_simp
    ring

/-- C2.  Level-SIP reduction: with `stepUpRate = 0` the step-up solver and
the closed-form level branch of `calculateMonthlySIP` agree to within one
rounding unit, since the simulated no-step schedule has exactly the
annuity-due factor as its unit future value and the bisection lands within
one unit of the exact quotient. -/
theorem stepUp_level_reduction (t : ℚ) (Y : ℕ) (r : ℚ)
    (ht : 0 < t) (hY : 1 ≤ Y) (hr : 0 < r) :
    |calculateStepUpSIP t Y r 0 - calculateMonthlySIP t Y r 0| ≤ 1 := by
  have hlevel : calculateMonthlySIP t Y r 0
      = jsRound (t / calculateStepUpFutureValue 1 Y r 0) := by
    rw [monthlySIP_eq_cases t Y r,
      if_neg (by push_neg; exact ⟨ht.ne', by omega, hr.ne'⟩),
      stepUpFV_one_level Y r hr.ne']
  have hsolve : calculateStepUpSIP t Y r 0
      = jsRound (bisectGo t Y r 0 ((⌈t / 12⌉).toNat) 0 (t / 12) 0) := rfl
  rw [hsolve, hlevel]
  exact jsRound_lipschitz (bisect_result_close t Y r 0 ht hY hr le_rfl)

/-- Closed instance of `stepUp_level_reduction` at
`targetAmount = 100, years = 1, annualRate = 12`. -/
theorem stepUp_level_reduction_witness :
    (0:ℚ) < 100 ∧ 1 ≤ 1 ∧ (0:ℚ) < 12 ∧
      |calculateStepUpSIP 100 1 12 0 - calculateMonthlySIP 100 1 12 0| ≤ 1 :=
  ⟨by norm_num, le_refl 1, by norm_num,
    stepUp_level_reduction 100 1 12 (by norm_num) (le_refl 1) (by norm_num)⟩

/-- Adding one simulated year strictly increases the unit future value:
the existing contributions are stepped up (factor `≥ 1`) and a strictly
positive new first year is added. -/
theorem stepUpFV_one_lt_succ (Y : ℕ) (r u : ℚ) (hr : 0 < r) (hu : 0 ≤ u) :
    calculateStepUpFutureValue 1 Y r u < calculateStepUpFutureValue 1 (Y + 1) r u := by
  rw [stepUpFV_one_succ]
  have hK0 : 0 ≤ calculateStepUpFutureValue 1 Y r u :=
    stepUpFV_nonneg 1 Y r u (by norm_num) hr.le hu
  have hx : (0:ℚ) < 1 + r / 12 / 100 := by
    have : (0:ℚ) < r / 12 / 100 := by positivity
    linarith
  have hB : 0 < ∑ m ∈ Finset.range 12, (1 + r / 12 / 100) ^ ((Y + 1) * 12 - m) :=
    Finset.sum_pos (fun m _ => pow_pos hx _) (by simp)
  have hu1 : (1:ℚ) ≤ 1 + u / 100 := by
    have : (0:ℚ) ≤ u / 100 := by positivity
    linarith
  nlinarith

/-- C4 (amended).  Monotonicity of the step-up oracle: strictly increasing
in `initialSIP` with value `0` at `initialSIP = 0`; strictly increasing in
`stepUpRate` provided at least two contribution years exist (`2 ≤ Y` — with
a single year the first-year contribution is never stepped up and the result
is independent of `stepUpRate`, see the counterexample); strictly increasing
in `years`; and strictly increasing in `annualRate`. -/
theorem stepUpFV_monotonicity (Y Y₁ Y₂ : ℕ) (s s₁ s₂ r r₁ r₂ u u₁ u₂ : ℚ)
    (hY : 1 ≤ Y) (hr : 0 < r) (hu : 0 ≤ u) (hs : 0 < s) :
    (s₁ < s₂ → calculateStepUpFutureValue s₁ Y r u < calculateStepUpFutureValue s₂ Y r u) ∧
      calculateStepUpFutureValue 0 Y r u = 0 ∧
      (2 ≤ Y → 0 ≤ u₁ → u₁ < u₂ →
        calculateStepUpFutureValue s Y r u₁ < calculateStepUpFutureValue s Y r u₂) ∧
      (Y₁ < Y₂ →
        calculateStepUpFutureValue s Y₁ r u < calculateStepUpFutureValue s Y₂ r u) ∧
      (0 < r₁ → r₁ < r₂ →
        calculateStepUpFutureValue s Y r₁ u < calculateStepUpFutureValue s Y r₂ u) := by
  have hK12 : 12 ≤ calculateStepUpFutureValue 1 Y r u := stepUpFV_one_ge_twelve Y r u hY hr hu
  have hK : 0 < calculateStepUpFutureValue 1 Y r u := by linarith
  refine ⟨?_, ?_, ?_, ?_, ?_⟩
  · intro h12
    rw [stepUpFV_linear s₁, stepUpFV_linear s₂]
    exact mul_lt_mul_of_pos_right h12 hK
  · rw [stepUpFV_linear 0, zero_mul]
  · intro hY2 hu₁ hu₁₂
    simp only [calculateStepUpFutureValue]
    have hb₁ : (0:ℚ) ≤ 1 + u₁ / 100 := by
      have : (0:ℚ) ≤ u₁ / 100 := by positivity
      linarith
    have hb₁₂ : 1 + u₁ / 100 < 1 + u₂ / 100 := by linarith
    have hxp : ∀ e : ℕ, (0:ℚ) < (1 + r / 12 / 100) ^ e := by
      intro e
      have hpos : (0:ℚ) < r / 12 / 100 := by positivity
      exact pow_pos (by linarith) e
    refine Finset.sum_lt_sum (fun y _ => Finset.sum_le_sum fun m _ => ?_)
      ⟨1, Finset.mem_range.mpr (by omega), Finset.sum_lt_sum_of_nonempty (by simp)
        fun m _ => ?_⟩
    · have hpow : (1 + u₁ / 100) ^ y ≤ (1 + u₂ / 100) ^ y :=
        pow_le_pow_left₀ hb₁ hb₁₂.le y
      exact mul_le_mul_of_nonneg_right (mul_le_mul_of_nonneg_left hpow hs.le)
        (hxp ((Y - y) * 12 - m)).le
    · have hpow : (1 + u₁ / 100) ^ 1 < (1 + u₂ / 100) ^ 1 := by
        rw [pow_one, pow_one]
        exact hb₁₂
      exact mul_lt_mul_of_pos_right (mul_lt_mul_of_pos_left hpow hs)
        (hxp ((Y - 1) * 12 - m))
  · intro hYlt
    have hmono : StrictMono fun n => calculateStepUpFutureValue 1 n r u :=
      strictMono_nat_of_lt_succ fun n => stepUpFV_one_lt_succ n r u hr hu
    rw [stepUpFV_linear s (Y := Y₁), stepUpFV_linear s (Y := Y₂)]
    exact mul_lt_mul_of_pos_left (hmono hYlt) hs
  · intro hr₁ hr₁₂
    simp only [calculateStepUpFutureValue]
    refine Finset.sum_lt_sum_of_nonempty (by simp; omega) fun y hy => ?_
    refine Finset.sum_lt_sum_of_nonempty (by simp) fun m hm => ?_
    rw [Finset.mem_range] at hy hm
    have he : (Y - y) * 12 - m ≠ 0 := by
      have h1 : 1 ≤ Y - y := by omega
      have : 12 ≤ (Y - y) * 12 := by omega
      omega
    have hb₁ : (0:ℚ) ≤ 1 + r₁ / 12 / 100 := by
      have : (0:ℚ) ≤ r₁ / 12 / 100 := by positivity
      linarith
    have hblt : 1 + r₁ / 12 / 100 < 1 + r₂ / 12 / 100 := by linarith
    have hpow : (1 + r₁ / 12 / 100) ^ ((Y - y) * 12 - m)
        < (1 + r₂ / 12 / 100) ^ ((Y - y) * 12 - m) :=
      pow_lt_pow_left₀ hblt hb₁ he
    have hsy : (0:ℚ) < s * (1 + u / 100) ^ y := by
      have : (0:ℚ) < 1 + u / 100 := by
        have : (0:ℚ) ≤ u / 100 := by positivity
        linarith
      positivity
    calc s * (1 + u / 100) ^ y * (1 + r₁ / 12 / 100) ^ ((Y - y) * 12 - m)
        < s * (1 + u / 100) ^ y * (1 + r₂ / 12 / 100) ^ ((Y - y) * 12 - m) := by
          exact mul_lt_mul_of_pos_left hpow hsy

/-- The claim's unconditional strictness in `stepUpRate` fails at
`years = 1`: with a single contribution year the annual step-up is never
applied, so the future value at `stepUpRate = 0` and `stepUpRate = 10`
coincide for `initialSIP = 100 > 0`, `annualRate = 12 > 0`. -/
theorem stepUpFV_stepUp_counterexample :
    calculateStepUpFutureValue 100 1 12 0 = calculateStepUpFutureValue 100 1 12 10 ∧
      ¬ calculateStepUpFutureValue 100 1 12 0 < calculateStepUpFutureValue 100 1 12 10 := by
  have h : calculateStepUpFutureValue 100 1 12 0 = calculateStepUpFutureValue 100 1 12 10 := by
    simp [calculateStepUpFutureValue, Finset.sum_range_one]
  exact ⟨h, by rw [h]; exact lt_irrefl _⟩

/-- Closed instance of `stepUpFV_monotonicity` at
`Y = 2, Y₁ = 1, Y₂ = 2, s = 100, s₁ = 1, s₂ = 2, r = 12, r₁ = 12, r₂ = 13,
u = 0, u₁ = 0, u₂ = 10`. -/
theorem stepUpFV_monotonicity_witness :
    (1 ≤ 2) ∧ ((0:ℚ) < 12) ∧ ((0:ℚ) ≤ 0) ∧ ((0:ℚ) < 100) ∧
      (((1:ℚ) < 2 → calculateStepUpFutureValue 1 2 12 0 < calculateStepUpFutureValue 2 2 12 0) ∧
        calculateStepUpFutureValue 0 2 12 0 = 0 ∧
        (2 ≤ 2 → (0:ℚ) ≤ 0 → (0:ℚ) < 10 →
          calculateStepUpFutureValue 100 2 12 0 < calculateStepUpFutureValue 100 2 12 10) ∧
        (1 < 2 →
          calculateStepUpFutureValue 100 1 12 0 < calculateStepUpFutureValue 100 2 12 0) ∧
        ((0:ℚ) < 12 → (12:ℚ) < 13 →
          calculateStepUpFutureValue 100 2 12 0 < calculateStepUpFutureValue 100 2 13 0)) :=
  ⟨by norm_num, by norm_num, le_refl 0, by norm_num,
    stepUpFV_monotonicity 2 1 2 100 1 2 12 12 13 0 0 10 (by norm_num) (by norm_num)
      (le_refl 0) (by norm_num)⟩

/-- The step-up accumulation loop equals the closed sum of the yearly
(geometrically stepped) contributions. -/
theorem totalInvestGo_eq (st : ℚ) :
    ∀ (n : ℕ) (sip acc : ℚ), totalInvestGo st n sip acc
      = acc + ∑ y ∈ Finset.range n, 12 * sip * (1 + st) ^ y := by
  intro n
  induction n with
  | zero =>
    intro sip acc
    simp [totalInvestGo]
  | succ n ih =>
    intro sip acc
    simp only [totalInvestGo]
    rw [ih, Finset.sum_range_succ']
    have hterm : ∀ y ∈ Finset.range n, 12 * sip * (1 + st) ^ (y + 1)
        = 12 * (sip * (1 + st)) * (1 + st) ^ y := by
      intro y _
      rw [pow_succ]
      ring
    rw [Finset.sum_congr rfl hterm]
    ring

/-- C10.  Fractional-horizon ceiling: the JS year loop `for (year = 0;
year < years; year++)` executes its body exactly for the `jsLoopIterations
years = max(⌈years⌉, 0)` integer values below `years`; consequently the
step-up branch of `calculateTotalInvestment` sums 12 full monthly
contributions for each of `⌈years⌉` loop years, while the flat branch
scales by the exact, possibly fractional, `years` — so at `years = 1/2` the
step-up branch yields `12 * monthlySIP` but the flat branch `6 * monthlySIP`,
and the two disagree for every `monthlySIP ≠ 0`. -/
theorem totalInvestment_fractional_ceiling (m years s : ℚ) :
    (∀ k : ℕ, ((k : ℚ) < years ↔ k < jsLoopIterations years)) ∧
      (s ≠ 0 → calculateTotalInvestment m years s
        = ∑ y ∈ Finset.range (jsLoopIterations years), 12 * m * (1 + s / 100) ^ y) ∧
      calculateTotalInvestment m years 0 = m * years * 12 ∧
      (s ≠ 0 → calculateTotalInvestment m (1/2) s = 12 * m) ∧
      calculateTotalInvestment m (1/2) 0 = 6 * m := by
  have hiter : ∀ yrs : ℚ, ∀ k : ℕ, ((k : ℚ) < yrs ↔ k < jsLoopIterations yrs) := by
    intro yrs k
    rw [jsLoopIterations, Int.lt_toNat, Int.lt_ceil]
    push_cast
    exact Iff.rfl.symm
  have hstep : ∀ yrs : ℚ, s ≠ 0 → calculateTotalInvestment m yrs s
      = ∑ y ∈ Finset.range (jsLoopIterations yrs), 12 * m * (1 + s / 100) ^ y := by
    intro yrs hs
    rw [calculateTotalInvestment, if_neg hs, totalInvestGo_eq, zero_add]
  have hhalf : jsLoopIterations (1/2 : ℚ) = 1 := by
    rw [jsLoopIterations]
    have : (⌈(1/2 : ℚ)⌉ : ℤ) = 1 := by
      rw [Int.ceil_eq_iff]
      norm_num
    rw [this]
    rfl
  refine ⟨hiter years, hstep years, ?_, ?_, ?_⟩
  · rw [calculateTotalInvestment, if_pos rfl]
  · intro hs
    rw [hstep (1/2) hs, hhalf, Finset.sum_range_one, pow_zero, mul_one]
  · rw [calculateTotalInvestment, if_pos rfl]
    ring

end SIPCalculator
